import Mathlib

/-!
Shallow embedding of the checkers move-decision engine in `src/checkers.py`.

The board snapshot (`BoardState`) holds the dictionary built by
`BoardState.from_page` from the rendered `#board img` elements: for each
element, the `name` attribute (the cell identifier, of the form `spaceXY`)
maps to the final path component of the `src` attribute (the content
identifier, e.g. `you1.gif`).  The Python dict is modelled as an
association list with insertion-order semantics: inserting an existing key
overwrites its value in place, a new key is appended.

Machine integers do not occur; Python ints are modelled as `Int`.
Coordinates extracted from `int(name[5])`, `int(name[6])` are the digit
values of the characters at indices 5 and 6 of the cell identifier.
-/

set_option autoImplicit false

namespace Checkers

/-- A board coordinate `(column, row)`; the Python code uses plain int pairs. -/
abbrev Square : Type := Int × Int

/-- The board snapshot: the `pieces` dict of `BoardState`, as an association
list from cell identifier to content filename, in insertion order. -/
structure BoardState where
  pieces : List (String × String)
deriving DecidableEq

/-- Python `int(c)` on a single digit character: the numeric value `c - 48`.
Total extension; the source never receives non-digit characters there
(malformed identifiers are out of scope per the naming-scheme assumption). -/
def digitVal (c : Char) : Int := (c.toNat : Int) - 48

/-- `x, y = int(name[5]), int(name[6])`: the coordinate a cell identifier
encodes at character offsets 5 and 6. -/
def coordOf (name : String) : Square :=
  (digitVal (name.toList.getD 5 ' '), digitVal (name.toList.getD 6 ' '))

/-- `BoardState.player_pieces`: coordinates of entries whose content is
exactly `you1.gif`. -/
def BoardState.player_pieces (st : BoardState) : List Square :=
  st.pieces.filterMap (fun p => if p.2 = "you1.gif" then some (coordOf p.1) else none)

/-- `BoardState.opponent_pieces`: coordinates of entries whose content is
exactly `me1.gif`. -/
def BoardState.opponent_pieces (st : BoardState) : List Square :=
  st.pieces.filterMap (fun p => if p.2 = "me1.gif" then some (coordOf p.1) else none)

/-- `BoardState.empty_playable_squares`: coordinates of entries whose content
is exactly `gray.gif`. -/
def BoardState.empty_playable_squares (st : BoardState) : List Square :=
  st.pieces.filterMap (fun p => if p.2 = "gray.gif" then some (coordOf p.1) else none)

/-- `filename = src.split("/")[-1] if src else ""`: the content filename a
raw `src` attribute yields (`none` models an absent attribute, and the empty
string is falsy in Python). -/
def filenameOf : Option String → String
  | none => ""
  | some src => if src = "" then "" else (src.splitOn "/").getLastD ""

/-- `pieces[name] = filename` on a Python dict: overwrite in place when the
key is present, append otherwise. -/
def dictInsert (d : List (String × String)) (k v : String) : List (String × String) :=
  if k ∈ d.map Prod.fst then
    d.map (fun p => if p.1 = k then (k, v) else p)
  else d ++ [(k, v)]

/-- One iteration of the loop in `BoardState.from_page`: skip the element if
its `name` attribute is absent or empty (`if not name: continue`), otherwise
store the extracted filename under that name. -/
def stepPair (d : List (String × String)) (pr : Option String × Option String) :
    List (String × String) :=
  match pr.1 with
  | none => d
  | some name => if name = "" then d else dictInsert d name (filenameOf pr.2)

/-- `BoardState.from_page`: the page is abstracted as the list of raw
`(name attribute, src attribute)` pairs of the `#board img` elements, in
document order; the dict is built by the loop of `stepPair` steps. -/
def BoardState.from_page (raw : List (Option String × Option String)) : BoardState :=
  ⟨raw.foldl stepPair []⟩

/-- Python dict lookup on the association-list model. -/
def dictGet (d : List (String × String)) (k : String) : Option String :=
  (d.find? (fun p => p.1 == k)).map Prod.snd

/-- Both coordinates within the board: `0 <= c <= 7` on column and row,
exactly the bound test of `find_capture_move` and `find_simple_move`. -/
def onBoard (sq : Square) : Prop :=
  0 ≤ sq.1 ∧ sq.1 ≤ 7 ∧ 0 ≤ sq.2 ∧ sq.2 ≤ 7

instance (sq : Square) : Decidable (onBoard sq) := by
  unfold onBoard; infer_instance

/-- The body of the inner loop of `find_capture_move` for one piece `(x, y)`
and one direction `dx`: destination `(x+dx, y+2)` must be on the board, and
the move is returned when the midpoint `(x + dx // 2, y + 1)` is an opponent
piece and the destination is empty playable. -/
def tryCaptureAt (opponents empties : List Square) (x y dx : Int) :
    Option (Square × Square) :=
  let destX := x + dx
  let destY := y + 2
  if onBoard (destX, destY) then
    let midX := x + dx / 2
    let midY := y + 1
    if (midX, midY) ∈ opponents ∧ (destX, destY) ∈ empties then
      some ((x, y), (destX, destY))
    else none
  else none

/-- `find_capture_move`: scan the player pieces in snapshot order, the
directions in order `-2, 2`, and return the first valid capture, else
`none`.  Python materialises `opponents` and `empties` as sets; only
membership is used, so list membership is an equivalent model. -/
def find_capture_move (st : BoardState) : Option (Square × Square) :=
  let opponents := st.opponent_pieces
  let empties := st.empty_playable_squares
  st.player_pieces.findSome? (fun p =>
    [(-2 : Int), 2].findSome? (fun dx => tryCaptureAt opponents empties p.1 p.2 dx))

/-- The body of the inner loop of `find_simple_move` for one piece `(x, y)`
and one direction `dx`: destination `(x+dx, y+1)` on the board and empty
playable. -/
def trySimpleAt (empties : List Square) (x y dx : Int) : Option (Square × Square) :=
  let destX := x + dx
  let destY := y + 1
  if onBoard (destX, destY) then
    if (destX, destY) ∈ empties then some ((x, y), (destX, destY)) else none
  else none

/-- `find_simple_move`: scan the player pieces in snapshot order, the
directions in order `-1, 1`, and return the first valid simple move, else
`none`. -/
def find_simple_move (st : BoardState) : Option (Square × Square) :=
  let empties := st.empty_playable_squares
  st.player_pieces.findSome? (fun p =>
    [(-1 : Int), 1].findSome? (fun dx => trySimpleAt empties p.1 p.2 dx))

/-- The move selection of one `make_moves` iteration:
`move = find_capture_move(state); if not move: move = find_simple_move(state)`.
A returned move is a nonempty tuple, hence always truthy in Python, so
`not move` holds exactly when `find_capture_move` returned `None`. -/
def move_search (st : BoardState) : Option (Square × Square) :=
  match find_capture_move st with
  | some m => some m
  | none => find_simple_move st

/-- A well-formed cell identifier per the collaborator naming scheme (the
data-model invariant): `space` followed by two digit characters in the range
`0`..`7`, naming one of the 64 board cells. -/
def validCellName (n : String) : Bool :=
  match n.toList with
  | ['s', 'p', 'a', 'c', 'e', a, b] =>
      decide (48 ≤ a.toNat ∧ a.toNat ≤ 55 ∧ 48 ≤ b.toNat ∧ b.toNat ≤ 55)
  | _ => false

/-- Key-masking: the entry value at key `n` replaced by a fixed token,
leaving all other entries alone.  Two dicts are `MaskEq n` when they agree
everywhere except possibly on the value stored at key `n`. -/
def maskKey (n : String) (p : String × String) : String × String :=
  if p.1 = n then (p.1, "") else p

/-- Agreement of two dict states up to the value stored at key `n`. -/
def MaskEq (n : String) (d₁ d₂ : List (String × String)) : Prop :=
  d₁.map (maskKey n) = d₂.map (maskKey n)

inductive Action where
  | waitTurn : Action
  | click : Square → Action
  | reportNoMoves : Action
  | pause : Action
deriving DecidableEq

/-- Whether an interaction is a cell activation (a click). -/
def Action.isClick : Action → Bool
  | Action.click _ => true
  | _ => false

/-- The interaction trace of `make_moves(page, number_of_moves)` starting at
turn index `i`, where `snaps i` is the snapshot `BoardState.from_page` reads
on turn `i`: each iteration waits for the turn, searches the snapshot, and
either reports no moves and returns, or performs the move (two clicks, in
order origin then destination) and pauses. -/
def make_moves (snaps : Nat → BoardState) : Nat → Nat → List Action
  | 0, _ => []
  | n + 1, i =>
    match move_search (snaps i) with
    | none => [Action.waitTurn, Action.reportNoMoves]
    | some m => Action.waitTurn :: Action.click m.1 :: Action.click m.2 ::
        Action.pause :: make_moves snaps n (i + 1)

/-! ### State-passing embedding of the two search functions

The Python search functions execute against a mutable `BoardState` object.
To state purity, each accessor is embedded as an explicit state transformer
returning its result together with the object state after the call; the
method bodies only read `self.pieces`, so each returns the state unchanged,
and the searches thread the state through their calls in source order. -/

def BoardState.player_pieces_eff (st : BoardState) : List Square × BoardState :=
  (st.player_pieces, st)

def BoardState.opponent_pieces_eff (st : BoardState) : List Square × BoardState :=
  (st.opponent_pieces, st)

def BoardState.empty_playable_squares_eff (st : BoardState) : List Square × BoardState :=
  (st.empty_playable_squares, st)

/-- `find_capture_move` with the snapshot state threaded through the three
accessor calls in source order. -/
def find_capture_move_eff (st : BoardState) : Option (Square × Square) × BoardState :=
  let r1 := st.opponent_pieces_eff
  let r2 := r1.2.empty_playable_squares_eff
  let r3 := r2.2.player_pieces_eff
  (r3.1.findSome? (fun p =>
    [(-2 : Int), 2].findSome? (fun dx => tryCaptureAt r1.1 r2.1 p.1 p.2 dx)), r3.2)

/-- `find_simple_move` with the snapshot state threaded through the two
accessor calls in source order. -/
def find_simple_move_eff (st : BoardState) : Option (Square × Square) × BoardState :=
  let r1 := st.empty_playable_squares_eff
  let r2 := r1.2.player_pieces_eff
  (r2.1.findSome? (fun p =>
    [(-1 : Int), 1].findSome? (fun dx => trySimpleAt r1.1 p.1 p.2 dx)), r2.2)

/-! ### Helper lemmas -/

theorem find_capture_move_def (st : BoardState) :
    find_capture_move st = st.player_pieces.findSome? (fun p =>
      [(-2 : Int), 2].findSome? (fun dx =>
        tryCaptureAt st.opponent_pieces st.empty_playable_squares p.1 p.2 dx)) := rfl

theorem find_simple_move_def (st : BoardState) :
    find_simple_move st = st.player_pieces.findSome? (fun p =>
      [(-1 : Int), 1].findSome? (fun dx =>
        trySimpleAt st.empty_playable_squares p.1 p.2 dx)) := rfl

theorem findSome?_some_ex {α β : Type} {l : List α} {f : α → Option β} {b : β}
    (w : l.findSome? f = some b) : ∃ a ∈ l, f a = some b := by
  induction l with
  | nil => simp at w
  | cons a l ih =>
    rw [List.findSome?_cons] at w
    cases hfa : f a with
    | some c =>
      simp only [hfa] at w
      exact ⟨a, List.mem_cons_self a l, hfa.trans w⟩
    | none =>
      simp only [hfa] at w
      obtain ⟨x, hx, hfx⟩ := ih w
      exact ⟨x, List.mem_cons_of_mem _ hx, hfx⟩

theorem tryCaptureAt_def (opps emps : List Square) (x y dx : Int) :
    tryCaptureAt opps emps x y dx =
      if onBoard (x + dx, y + 2) then
        if (x + dx / 2, y + 1) ∈ opps ∧ (x + dx, y + 2) ∈ emps then
          some ((x, y), (x + dx, y + 2))
        else none
      else none := rfl

theorem trySimpleAt_def (emps : List Square) (x y dx : Int) :
    trySimpleAt emps x y dx =
      if onBoard (x + dx, y + 1) then
        if (x + dx, y + 1) ∈ emps then some ((x, y), (x + dx, y + 1)) else none
      else none := rfl

theorem tryCaptureAt_eq_none_iff (opps emps : List Square) (x y dx : Int) :
    tryCaptureAt opps emps x y dx = none ↔
      ¬ (onBoard (x + dx, y + 2) ∧ (x + dx / 2, y + 1) ∈ opps ∧
          (x + dx, y + 2) ∈ emps) := by
  rw [tryCaptureAt_def]
  split_ifs with h1 h2 <;> simp <;> tauto

theorem tryCaptureAt_eq_some {opps emps : List Square} {x y dx : Int}
    {m : Square × Square} (h : tryCaptureAt opps emps x y dx = some m) :
    m = ((x, y), (x + dx, y + 2)) ∧ onBoard (x + dx, y + 2) ∧
      (x + dx / 2, y + 1) ∈ opps ∧ (x + dx, y + 2) ∈ emps := by
  rw [tryCaptureAt_def] at h
  split_ifs at h with h1 h2
  all_goals simp_all

theorem trySimpleAt_eq_none_iff (emps : List Square) (x y dx : Int) :
    trySimpleAt emps x y dx = none ↔
      ¬ (onBoard (x + dx, y + 1) ∧ (x + dx, y + 1) ∈ emps) := by
  rw [trySimpleAt_def]
  split_ifs with h1 h2 <;> simp <;> tauto

theorem trySimpleAt_eq_some {emps : List Square} {x y dx : Int}
    {m : Square × Square} (h : trySimpleAt emps x y dx = some m) :
    m = ((x, y), (x + dx, y + 1)) ∧ onBoard (x + dx, y + 1) ∧
      (x + dx, y + 1) ∈ emps := by
  rw [trySimpleAt_def] at h
  split_ifs at h with h1 h2
  all_goals simp_all

theorem find_capture_move_sound {st : BoardState} {m : Square × Square}
    (h : find_capture_move st = some m) :
    m.1 ∈ st.player_pieces ∧ ∃ dx : Int, (dx = -2 ∨ dx = 2) ∧
      m.2 = (m.1.1 + dx, m.1.2 + 2) ∧ onBoard m.2 ∧
      m.2 ∈ st.empty_playable_squares ∧
      (m.1.1 + dx / 2, m.1.2 + 1) ∈ st.opponent_pieces := by
  rw [find_capture_move_def] at h
  obtain ⟨p, hp, hfp⟩ := findSome?_some_ex h
  obtain ⟨dx, hdx, hdxm⟩ := findSome?_some_ex hfp
  obtain ⟨hm, hb, ho, he⟩ := tryCaptureAt_eq_some hdxm
  subst hm
  refine ⟨by simpa using hp, dx, by simpa using hdx, rfl, hb, he, ho⟩

theorem find_simple_move_sound {st : BoardState} {m : Square × Square}
    (h : find_simple_move st = some m) :
    m.1 ∈ st.player_pieces ∧ ∃ dx : Int, (dx = -1 ∨ dx = 1) ∧
      m.2 = (m.1.1 + dx, m.1.2 + 1) ∧ onBoard m.2 ∧
      m.2 ∈ st.empty_playable_squares := by
  rw [find_simple_move_def] at h
  obtain ⟨p, hp, hfp⟩ := findSome?_some_ex h
  obtain ⟨dx, hdx, hdxm⟩ := findSome?_some_ex hfp
  obtain ⟨hm, hb, he⟩ := trySimpleAt_eq_some hdxm
  subst hm
  refine ⟨by simpa using hp, dx, by simpa using hdx, rfl, hb, he⟩

theorem char_toNat_inj {a b : Char} (h : a.toNat = b.toNat) : a = b := by
  have ha := Char.ofNat_toNat a
  rw [h, Char.ofNat_toNat b] at ha
  exact ha.symm

theorem coordOf_valid_onBoard {n : String} (h : validCellName n = true) :
    onBoard (coordOf n) := by
  unfold validCellName at h
  split at h
  case _ a b heq =>
    rw [decide_eq_true_iff] at h
    unfold coordOf digitVal onBoard
    simp only [heq, List.getD_cons_succ, List.getD_cons_zero]
    omega
  case _ => simp at h

theorem coordOf_valid_inj {n₁ n₂ : String} (h₁ : validCellName n₁ = true)
    (h₂ : validCellName n₂ = true) (h : coordOf n₁ = coordOf n₂) : n₁ = n₂ := by
  unfold validCellName at h₁ h₂
  split at h₁
  case _ a₁ b₁ heq₁ =>
    split at h₂
    case _ a₂ b₂ heq₂ =>
      rw [decide_eq_true_iff] at h₁ h₂
      unfold coordOf digitVal at h
      simp only [heq₁, heq₂, List.getD_cons_succ, List.getD_cons_zero,
        Prod.mk.injEq] at h
      obtain ⟨hx, hy⟩ := h
      have ha : a₁ = a₂ := char_toNat_inj (by omega)
      have hb : b₁ = b₂ := char_toNat_inj (by omega)
      have hl : n₁.toList = n₂.toList := by rw [heq₁, heq₂, ha, hb]
      exact String.ext hl
    case _ => simp at h₂
  case _ => simp at h₁

theorem nodup_keys_val_eq {l : List (String × String)}
    (h : (l.map Prod.fst).Nodup) {n v₁ v₂ : String}
    (h₁ : (n, v₁) ∈ l) (h₂ : (n, v₂) ∈ l) : v₁ = v₂ := by
  induction l with
  | nil => simp at h₁
  | cons a l ih =>
    simp only [List.map_cons, List.nodup_cons] at h
    rcases List.mem_cons.mp h₁ with e₁ | m₁
    · rcases List.mem_cons.mp h₂ with e₂ | m₂
      · exact (Prod.ext_iff.mp (e₁.trans e₂.symm)).2
      · exfalso
        apply h.1
        rw [← e₁]
        show n ∈ List.map Prod.fst l
        exact List.mem_map_of_mem Prod.fst m₂
    · rcases List.mem_cons.mp h₂ with e₂ | m₂
      · exfalso
        apply h.1
        rw [← e₂]
        show n ∈ List.map Prod.fst l
        exact List.mem_map_of_mem Prod.fst m₁
      · exact ih h.2 m₁ m₂

theorem mem_view {l : List (String × String)} {tok : String} {sq : Square} :
    sq ∈ l.filterMap (fun p => if p.2 = tok then some (coordOf p.1) else none) ↔
      ∃ n : String, (n, tok) ∈ l ∧ coordOf n = sq := by
  rw [List.mem_filterMap]
  constructor
  · rintro ⟨⟨n, c⟩, hm, hc⟩
    by_cases h : c = tok
    · subst h
      simp at hc
      exact ⟨n, hm, hc⟩
    · simp [h] at hc
  · rintro ⟨n, hm, hsq⟩
    exact ⟨(n, tok), hm, by simp [hsq]⟩

theorem mem_player_pieces {st : BoardState} {sq : Square} :
    sq ∈ st.player_pieces ↔
      ∃ n : String, (n, "you1.gif") ∈ st.pieces ∧ coordOf n = sq := mem_view

theorem mem_opponent_pieces {st : BoardState} {sq : Square} :
    sq ∈ st.opponent_pieces ↔
      ∃ n : String, (n, "me1.gif") ∈ st.pieces ∧ coordOf n = sq := mem_view

theorem mem_empty_playable {st : BoardState} {sq : Square} :
    sq ∈ st.empty_playable_squares ↔
      ∃ n : String, (n, "gray.gif") ∈ st.pieces ∧ coordOf n = sq := mem_view

theorem views_disjoint_aux {st : BoardState}
    (hvalid : ∀ p ∈ st.pieces, validCellName p.1 = true)
    (hkeys : (st.pieces.map Prod.fst).Nodup) {t₁ t₂ : String} (hne : t₁ ≠ t₂)
    {sq : Square}
    (m₁ : ∃ n : String, (n, t₁) ∈ st.pieces ∧ coordOf n = sq)
    (m₂ : ∃ n : String, (n, t₂) ∈ st.pieces ∧ coordOf n = sq) : False := by
  obtain ⟨n₁, hn₁, hc₁⟩ := m₁
  obtain ⟨n₂, hn₂, hc₂⟩ := m₂
  have hv₁ := hvalid _ hn₁
  have hv₂ := hvalid _ hn₂
  have : n₁ = n₂ := coordOf_valid_inj hv₁ hv₂ (hc₁.trans hc₂.symm)
  subst this
  exact hne (nodup_keys_val_eq hkeys hn₁ hn₂)

/-! ### Claim theorems -/

/-- Claim C1: `find_capture_move` returns `none` if and only if no player
piece `(x, y)` has a valid jump: a destination `(x + dx, y + 2)` with
`dx ∈ {-2, 2}` that lies on the board and is empty playable, whose midpoint
`(x + dx / 2, y + 1)` is an opponent piece. -/
theorem find_capture_move_eq_none_iff (st : BoardState) :
    find_capture_move st = none ↔
      ¬ ∃ x y dx : Int, (x, y) ∈ st.player_pieces ∧ (dx = -2 ∨ dx = 2) ∧
        onBoard (x + dx, y + 2) ∧ (x + dx, y + 2) ∈ st.empty_playable_squares ∧
        (x + dx / 2, y + 1) ∈ st.opponent_pieces := by
  rw [find_capture_move_def, List.findSome?_eq_none_iff]
  constructor
  · rintro h ⟨x, y, dx, hmem, hdx, hb, he, ho⟩
    have h1 := h (x, y) hmem
    rw [List.findSome?_eq_none_iff] at h1
    have h2 := h1 dx (by rcases hdx with h' | h' <;> simp [h'])
    rw [tryCaptureAt_eq_none_iff] at h2
    exact h2 ⟨hb, ho, he⟩
  · intro h p hp
    rw [List.findSome?_eq_none_iff]
    intro dx hdx
    rw [tryCaptureAt_eq_none_iff]
    rintro ⟨hb, ho, he⟩
    exact h ⟨p.1, p.2, dx, by simpa using hp, by simpa using hdx, hb, he, ho⟩

/-- Claim C3: `find_simple_move` returns `none` if and only if no player
piece `(x, y)` has an on-board empty playable diagonal neighbour
`(x + dx, y + 1)` with `dx ∈ {-1, 1}`. -/
theorem find_simple_move_eq_none_iff (st : BoardState) :
    find_simple_move st = none ↔
      ¬ ∃ x y dx : Int, (x, y) ∈ st.player_pieces ∧ (dx = -1 ∨ dx = 1) ∧
        onBoard (x + dx, y + 1) ∧ (x + dx, y + 1) ∈ st.empty_playable_squares := by
  rw [find_simple_move_def, List.findSome?_eq_none_iff]
  constructor
  · rintro h ⟨x, y, dx, hmem, hdx, hb, he⟩
    have h1 := h (x, y) hmem
    rw [List.findSome?_eq_none_iff] at h1
    have h2 := h1 dx (by rcases hdx with h' | h' <;> simp [h'])
    rw [trySimpleAt_eq_none_iff] at h2
    exact h2 ⟨hb, he⟩
  · intro h p hp
    rw [List.findSome?_eq_none_iff]
    intro dx hdx
    rw [trySimpleAt_eq_none_iff]
    rintro ⟨hb, he⟩
    exact h ⟨p.1, p.2, dx, by simpa using hp, by simpa using hdx, hb, he⟩

/-- Claim C2: the move selection of `make_moves` never takes the simple
move when a capture exists: whenever `find_capture_move` returns a move,
`move_search` returns exactly that move, whatever `find_simple_move`
would return. -/
theorem move_search_prefers_capture (st : BoardState) (m : Square × Square)
    (h : find_capture_move st = some m) : move_search st = some m := by
  unfold move_search
  rw [h]

/-- Witness for C2: in the scenario with a player piece at (2,2), an
opponent at (3,3) and an empty square at (4,4), the selected move is the
capture (2,2) to (4,4). -/
theorem move_search_prefers_capture_witness :
    move_search ⟨[("space22", "you1.gif"), ("space33", "me1.gif"),
      ("space44", "gray.gif")]⟩ = some ((2, 2), (4, 4)) :=
  move_search_prefers_capture _ _ (by decide)

/-- Claim C5: Move Search is pure and deterministic.  In the state-passing
embedding, both searches return the snapshot unchanged, their results agree
with the pure functions of the snapshot, and a second run on the state left
by the first returns the same result. -/
theorem move_search_pure (st : BoardState) :
    (find_capture_move_eff st).2 = st ∧ (find_simple_move_eff st).2 = st ∧
    (find_capture_move_eff st).1 = find_capture_move st ∧
    (find_simple_move_eff st).1 = find_simple_move st ∧
    (find_capture_move_eff ((find_capture_move_eff st).2)).1 =
      (find_capture_move_eff st).1 ∧
    (find_simple_move_eff ((find_simple_move_eff st).2)).1 =
      (find_simple_move_eff st).1 :=
  ⟨rfl, rfl, rfl, rfl, rfl, rfl⟩

/-- Claim C6: a returned destination is always on the board, for every
snapshot, in particular also when the snapshot classifies off-board
coordinates as empty playable. -/
theorem moves_on_board (st : BoardState) (m : Square × Square) :
    (find_capture_move st = some m → onBoard m.2) ∧
    (find_simple_move st = some m → onBoard m.2) :=
  ⟨fun h => ((find_capture_move_sound h).2.choose_spec).2.2.1,
   fun h => ((find_simple_move_sound h).2.choose_spec).2.2.1⟩

/-- Witness for C6: concrete snapshots on which each search returns a move,
its destination on the board; the second snapshot also classifies the
off-board coordinate (8, 8) as empty playable, and that cell is not chosen. -/
theorem moves_on_board_witness :
    onBoard ((4 : Int), (4 : Int)) ∧ onBoard ((3 : Int), (3 : Int)) :=
  ⟨(moves_on_board ⟨[("space22", "you1.gif"), ("space33", "me1.gif"),
      ("space44", "gray.gif")]⟩ ((2, 2), (4, 4))).1 (by decide),
   (moves_on_board ⟨[("space22", "you1.gif"), ("space88", "gray.gif"),
      ("space33", "gray.gif")]⟩ ((2, 2), (3, 3))).2 (by decide)⟩

/-- Claim C9: every move returned by `find_capture_move` is a valid capture
(origin a player piece, destination `(x + dx, y + 2)` for `dx ∈ {-2, 2}`,
destination on the board and empty playable, midpoint an opponent piece),
and every move returned by `find_simple_move` is a valid simple move
(origin a player piece, destination `(x + dx, y + 1)` for `dx ∈ {-1, 1}`,
on the board and empty playable). -/
theorem returned_moves_valid (st : BoardState) (m : Square × Square) :
    (find_capture_move st = some m →
      m.1 ∈ st.player_pieces ∧ ∃ dx : Int, (dx = -2 ∨ dx = 2) ∧
        m.2 = (m.1.1 + dx, m.1.2 + 2) ∧ onBoard m.2 ∧
        m.2 ∈ st.empty_playable_squares ∧
        (m.1.1 + dx / 2, m.1.2 + 1) ∈ st.opponent_pieces) ∧
    (find_simple_move st = some m →
      m.1 ∈ st.player_pieces ∧ ∃ dx : Int, (dx = -1 ∨ dx = 1) ∧
        m.2 = (m.1.1 + dx, m.1.2 + 1) ∧ onBoard m.2 ∧
        m.2 ∈ st.empty_playable_squares) :=
  ⟨fun h => find_capture_move_sound h, fun h => find_simple_move_sound h⟩

/-- Witness for C9: the validity conclusions instantiated on concrete
snapshots where each search returns a move. -/
theorem returned_moves_valid_witness :
    (((2 : Int), (2 : Int)) ∈
        (BoardState.mk [("space22", "you1.gif"), ("space33", "me1.gif"),
          ("space44", "gray.gif")]).player_pieces ∧
      ∃ dx : Int, (dx = -2 ∨ dx = 2) ∧
        ((4 : Int), (4 : Int)) = (2 + dx, 2 + 2) ∧ onBoard ((4 : Int), (4 : Int)) ∧
        ((4 : Int), (4 : Int)) ∈
          (BoardState.mk [("space22", "you1.gif"), ("space33", "me1.gif"),
            ("space44", "gray.gif")]).empty_playable_squares ∧
        ((2 : Int) + dx / 2, (2 : Int) + 1) ∈
          (BoardState.mk [("space22", "you1.gif"), ("space33", "me1.gif"),
            ("space44", "gray.gif")]).opponent_pieces) ∧
    (((2 : Int), (2 : Int)) ∈
        (BoardState.mk [("space22", "you1.gif"), ("space33", "gray.gif")]).player_pieces ∧
      ∃ dx : Int, (dx = -1 ∨ dx = 1) ∧
        ((3 : Int), (3 : Int)) = (2 + dx, 2 + 1) ∧ onBoard ((3 : Int), (3 : Int)) ∧
        ((3 : Int), (3 : Int)) ∈
          (BoardState.mk [("space22", "you1.gif"), ("space33", "gray.gif")]).empty_playable_squares) :=
  ⟨(returned_moves_valid ⟨[("space22", "you1.gif"), ("space33", "me1.gif"),
      ("space44", "gray.gif")]⟩ ((2, 2), (4, 4))).1 (by decide),
   (returned_moves_valid ⟨[("space22", "you1.gif"), ("space33", "gray.gif")]⟩
      ((2, 2), (3, 3))).2 (by decide)⟩

/-- Claim C4: on every snapshot whose cell identifiers obey the naming-scheme
invariant (each names one of the 64 cells, and as dict keys they are
pairwise distinct), the three derived views are pairwise disjoint and every
coordinate in them lies within the board. -/
theorem snapshot_views_disjoint_onBoard (st : BoardState)
    (hvalid : ∀ p ∈ st.pieces, validCellName p.1 = true)
    (hkeys : (st.pieces.map Prod.fst).Nodup) :
    (∀ sq : Square, ¬ (sq ∈ st.player_pieces ∧ sq ∈ st.opponent_pieces)) ∧
    (∀ sq : Square, ¬ (sq ∈ st.player_pieces ∧ sq ∈ st.empty_playable_squares)) ∧
    (∀ sq : Square, ¬ (sq ∈ st.opponent_pieces ∧ sq ∈ st.empty_playable_squares)) ∧
    (∀ sq : Square, sq ∈ st.player_pieces ∨ sq ∈ st.opponent_pieces ∨
      sq ∈ st.empty_playable_squares → onBoard sq) := by
  refine ⟨fun sq ⟨h₁, h₂⟩ => ?_, fun sq ⟨h₁, h₂⟩ => ?_, fun sq ⟨h₁, h₂⟩ => ?_,
    fun sq h => ?_⟩
  · exact views_disjoint_aux hvalid hkeys (by decide)
      (mem_player_pieces.mp h₁) (mem_opponent_pieces.mp h₂)
  · exact views_disjoint_aux hvalid hkeys (by decide)
      (mem_player_pieces.mp h₁) (mem_empty_playable.mp h₂)
  · exact views_disjoint_aux hvalid hkeys (by decide)
      (mem_opponent_pieces.mp h₁) (mem_empty_playable.mp h₂)
  · rcases h with h | h | h
    · obtain ⟨n, hn, hc⟩ := mem_player_pieces.mp h
      exact hc ▸ coordOf_valid_onBoard (hvalid _ hn)
    · obtain ⟨n, hn, hc⟩ := mem_opponent_pieces.mp h
      exact hc ▸ coordOf_valid_onBoard (hvalid _ hn)
    · obtain ⟨n, hn, hc⟩ := mem_empty_playable.mp h
      exact hc ▸ coordOf_valid_onBoard (hvalid _ hn)

/-- Witness for C4: on a concrete well-formed snapshot, the coordinate (2,3)
held by a player piece is not also an opponent piece, and the empty playable
coordinate (6,6) is on the board. -/
theorem snapshot_views_disjoint_onBoard_witness :
    ¬ (((2 : Int), (3 : Int)) ∈
        (BoardState.mk [("space23", "you1.gif"), ("space45", "me1.gif"),
          ("space66", "gray.gif")]).player_pieces ∧
      ((2 : Int), (3 : Int)) ∈
        (BoardState.mk [("space23", "you1.gif"), ("space45", "me1.gif"),
          ("space66", "gray.gif")]).opponent_pieces) :=
  (snapshot_views_disjoint_onBoard
    ⟨[("space23", "you1.gif"), ("space45", "me1.gif"), ("space66", "gray.gif")]⟩
    (by decide) (by decide)).1 (2, 3)

/-! ### Game Loop

`make_moves` interacts with the page: it waits for the turn, reads a
snapshot, selects a move, and either clicks the two squares of the move and
pauses, or prints the no-move report and returns.  The page is abstracted
as the sequence of snapshots its successive reads produce, and a run is
embedded as the list of emitted interactions. -/

/-- Claim C7: in a game-loop iteration whose snapshot admits neither a
capture nor a simple move, the loop reports no moves and terminates; the
trace from that iteration is exactly the wait and the report, so the turn
issues zero cell activations. -/
theorem make_moves_no_move_stops (snaps : Nat → BoardState) (n i : Nat)
    (hc : find_capture_move (snaps i) = none)
    (hs : find_simple_move (snaps i) = none) :
    make_moves snaps (n + 1) i = [Action.waitTurn, Action.reportNoMoves] ∧
    (make_moves snaps (n + 1) i).countP Action.isClick = 0 := by
  have hm : move_search (snaps i) = none := by
    unfold move_search
    rw [hc, hs]
  have h1 : make_moves snaps (n + 1) i = [Action.waitTurn, Action.reportNoMoves] := by
    unfold make_moves
    rw [hm]
  refine ⟨h1, ?_⟩
  rw [h1]
  decide

/-- Witness for C7: with every read returning the empty snapshot, the first
iteration of a two-turn run reports no moves, stops, and clicks nothing. -/
theorem make_moves_no_move_stops_witness :
    make_moves (fun _ => ⟨[]⟩) 2 0 = [Action.waitTurn, Action.reportNoMoves] ∧
    (make_moves (fun _ => ⟨[]⟩) 2 0).countP Action.isClick = 0 :=
  make_moves_no_move_stops (fun _ => ⟨[]⟩) 1 0 (by decide) (by decide)

/-! ### Snapshot construction: skipping and classification -/

theorem stepPair_none (d : List (String × String)) (c : Option String) :
    stepPair d (none, c) = d := rfl

theorem stepPair_some (d : List (String × String)) (name : String) (c : Option String) :
    stepPair d (some name, c) =
      if name = "" then d else dictInsert d name (filenameOf c) := rfl

theorem from_page_skip_aux (pre post : List (Option String × Option String))
    (x : Option String × Option String) (hx : ∀ d, stepPair d x = d) :
    BoardState.from_page (pre ++ x :: post) = BoardState.from_page (pre ++ post) := by
  unfold BoardState.from_page
  congr 1
  rw [List.foldl_append, List.foldl_append, List.foldl_cons, hx]

theorem view_drops_nontoken (pre post : List (String × String)) (n c tok : String)
    (h : c ≠ tok) :
    (pre ++ (n, c) :: post).filterMap
        (fun p => if p.2 = tok then some (coordOf p.1) else none)
      = (pre ++ post).filterMap
          (fun p => if p.2 = tok then some (coordOf p.1) else none) := by
  rw [List.filterMap_append, List.filterMap_append, List.filterMap_cons]
  simp [h]

/-- Claim C8: `from_page` skips raw pairs whose cell identifier is absent or
empty; an entry whose content is none of the three recognized tokens appears
in none of the three views; and each view classifies by exact token match:
a coordinate is in a view exactly when some entry holds the view token. -/
theorem from_page_classification :
    (∀ (pre post : List (Option String × Option String)) (c : Option String),
      BoardState.from_page (pre ++ (none, c) :: post)
        = BoardState.from_page (pre ++ post)) ∧
    (∀ (pre post : List (Option String × Option String)) (c : Option String),
      BoardState.from_page (pre ++ (some "", c) :: post)
        = BoardState.from_page (pre ++ post)) ∧
    (∀ (pre post : List (String × String)) (n c : String),
      c ≠ "you1.gif" → c ≠ "me1.gif" → c ≠ "gray.gif" →
      (BoardState.mk (pre ++ (n, c) :: post)).player_pieces
          = (BoardState.mk (pre ++ post)).player_pieces ∧
        (BoardState.mk (pre ++ (n, c) :: post)).opponent_pieces
          = (BoardState.mk (pre ++ post)).opponent_pieces ∧
        (BoardState.mk (pre ++ (n, c) :: post)).empty_playable_squares
          = (BoardState.mk (pre ++ post)).empty_playable_squares) ∧
    (∀ (st : BoardState) (sq : Square),
      (sq ∈ st.player_pieces ↔
        ∃ n : String, (n, "you1.gif") ∈ st.pieces ∧ coordOf n = sq) ∧
      (sq ∈ st.opponent_pieces ↔
        ∃ n : String, (n, "me1.gif") ∈ st.pieces ∧ coordOf n = sq) ∧
      (sq ∈ st.empty_playable_squares ↔
        ∃ n : String, (n, "gray.gif") ∈ st.pieces ∧ coordOf n = sq)) := by
  refine ⟨?_, ?_, ?_, ?_⟩
  · intro pre post c
    exact from_page_skip_aux pre post (none, c) (fun d => stepPair_none d c)
  · intro pre post c
    refine from_page_skip_aux pre post (some "", c) (fun d => ?_)
    rw [stepPair_some, if_pos rfl]
  · intro pre post n c h₁ h₂ h₃
    exact ⟨view_drops_nontoken pre post n c _ h₁,
      view_drops_nontoken pre post n c _ h₂,
      view_drops_nontoken pre post n c _ h₃⟩
  · intro st sq
    exact ⟨mem_player_pieces, mem_opponent_pieces, mem_empty_playable⟩

/-- Witness for C8: a pair with an absent identifier is skipped, and an
entry with unrecognized content (a light square image) is in no view. -/
theorem from_page_classification_witness :
    BoardState.from_page [(none, some "x.gif"), (some "space22", some "you1.gif")]
      = BoardState.from_page [(some "space22", some "you1.gif")] ∧
    (BoardState.mk [("space11", "black.gif"), ("space22", "you1.gif")]).player_pieces
      = (BoardState.mk [("space22", "you1.gif")]).player_pieces :=
  ⟨from_page_classification.1 [] [(some "space22", some "you1.gif")] (some "x.gif"),
   (from_page_classification.2.2.1 [] [("space22", "you1.gif")] "space11" "black.gif"
      (by decide) (by decide) (by decide)).1⟩

/-! ### Duplicate identifiers: last occurrence wins -/

theorem maskKey_map_id {n : String} {d : List (String × String)}
    (hd : n ∉ d.map Prod.fst) : d.map (maskKey n) = d := by
  induction d with
  | nil => rfl
  | cons a t ih =>
    rw [List.map_cons] at hd
    simp only [List.mem_cons, not_or] at hd
    rw [List.map_cons, ih hd.2]
    congr 1
    unfold maskKey
    rw [if_neg (fun h => hd.1 h.symm)]

theorem maskEq_keys {n : String} {d₁ d₂ : List (String × String)}
    (h : MaskEq n d₁ d₂) : d₁.map Prod.fst = d₂.map Prod.fst := by
  have e : ∀ d : List (String × String),
      (d.map (maskKey n)).map Prod.fst = d.map Prod.fst := by
    intro d
    rw [List.map_map]
    congr 1
    funext p
    simp only [Function.comp_apply]
    unfold maskKey
    split <;> rfl
  rw [← e d₁, ← e d₂]
  unfold MaskEq at h
  rw [h]

theorem maskEq_insert_self {n : String} {d₁ d₂ : List (String × String)}
    (h : MaskEq n d₁ d₂) (v : String) : dictInsert d₁ n v = dictInsert d₂ n v := by
  unfold MaskEq at h
  unfold dictInsert
  rw [maskEq_keys h]
  split_ifs with hk
  · have e : ∀ d : List (String × String),
        d.map (fun p => if p.1 = n then (n, v) else p)
          = (d.map (maskKey n)).map (fun p => if p.1 = n then (n, v) else p) := by
      intro d
      rw [List.map_map]
      congr 1
      funext p
      simp only [Function.comp_apply]
      by_cases hp : p.1 = n <;> simp [maskKey, hp]
    rw [e d₁, e d₂, h]
  · have hk₁ : n ∉ d₁.map Prod.fst := by
      rw [maskEq_keys h]
      exact hk
    rw [← maskKey_map_id hk₁, ← maskKey_map_id hk, h]

theorem maskEq_insert_two (n : String) (d : List (String × String)) (v₁ v₂ : String) :
    MaskEq n (dictInsert d n v₁) (dictInsert d n v₂) := by
  unfold MaskEq dictInsert
  split_ifs with hk
  · rw [List.map_map, List.map_map]
    congr 1
    funext p
    simp only [Function.comp_apply]
    by_cases hp : p.1 = n <;> simp [maskKey, hp]
  · rw [List.map_append, List.map_append]
    congr 1
    simp [maskKey]

theorem maskEq_insert_other {n m : String} {d₁ d₂ : List (String × String)}
    (h : MaskEq n d₁ d₂) (hm : m ≠ n) (v : String) :
    MaskEq n (dictInsert d₁ m v) (dictInsert d₂ m v) := by
  unfold MaskEq at h ⊢
  unfold dictInsert
  rw [maskEq_keys h]
  split_ifs with hk
  · have comm : ∀ d : List (String × String),
        (d.map (fun p => if p.1 = m then (m, v) else p)).map (maskKey n)
          = (d.map (maskKey n)).map (fun p => if p.1 = m then (m, v) else p) := by
      intro d
      rw [List.map_map, List.map_map]
      congr 1
      funext p
      simp only [Function.comp_apply]
      by_cases h1 : p.1 = m
      · have h2 : p.1 ≠ n := fun hp => hm (h1 ▸ hp ▸ rfl)
        simp [maskKey, h1, h2, hm]
      · by_cases h2 : p.1 = n <;> simp [maskKey, h1, h2, hm.symm]
    rw [comm d₁, comm d₂, h]
  · rw [List.map_append, List.map_append, h]

theorem maskEq_step {n : String} {d₁ d₂ : List (String × String)}
    (h : MaskEq n d₁ d₂) (pr : Option String × Option String) :
    MaskEq n (stepPair d₁ pr) (stepPair d₂ pr) := by
  obtain ⟨name?, c⟩ := pr
  cases name? with
  | none =>
    rw [stepPair_none, stepPair_none]
    exact h
  | some name =>
    rw [stepPair_some, stepPair_some]
    by_cases he : name = ""
    · rw [if_pos he, if_pos he]
      exact h
    · rw [if_neg he, if_neg he]
      by_cases hn : name = n
      · subst hn
        unfold MaskEq
        rw [maskEq_insert_self h]
      · exact maskEq_insert_other h hn _

theorem maskEq_foldl {n : String} {d₁ d₂ : List (String × String)}
    (h : MaskEq n d₁ d₂) (l : List (Option String × Option String)) :
    MaskEq n (l.foldl stepPair d₁) (l.foldl stepPair d₂) := by
  induction l generalizing d₁ d₂ with
  | nil => exact h
  | cons a t ih =>
    rw [List.foldl_cons, List.foldl_cons]
    exact ih (maskEq_step h a)

theorem stepPair_same_key_eq {n : String} {d₁ d₂ : List (String × String)}
    (h : MaskEq n d₁ d₂) (hn : n ≠ "") (c : Option String) :
    stepPair d₁ (some n, c) = stepPair d₂ (some n, c) := by
  rw [stepPair_some, stepPair_some, if_neg hn, if_neg hn]
  exact maskEq_insert_self h _

theorem find?_upd_mem {d : List (String × String)} {n : String} (v : String)
    (hk : n ∈ d.map Prod.fst) :
    (d.map (fun p => if p.1 = n then (n, v) else p)).find? (fun p => p.1 == n)
      = some (n, v) := by
  induction d with
  | nil => simp at hk
  | cons a t ih =>
    rw [List.map_cons] at hk
    rw [List.map_cons]
    by_cases h1 : a.1 = n
    · rw [if_pos h1, List.find?_cons_of_pos _ (by simp)]
    · rw [if_neg h1, List.find?_cons_of_neg _ (by simp [h1])]
      apply ih
      rcases List.mem_cons.mp hk with h | h
      · exact absurd h.symm h1
      · exact h

theorem find?_append_nomem {d : List (String × String)} {n : String} (v : String)
    (hk : n ∉ d.map Prod.fst) :
    (d ++ [(n, v)]).find? (fun p => p.1 == n) = some (n, v) := by
  induction d with
  | nil => simp
  | cons a t ih =>
    rw [List.map_cons] at hk
    simp only [List.mem_cons, not_or] at hk
    rw [List.cons_append, List.find?_cons_of_neg _ (by simp; exact fun h => hk.1 h.symm)]
    exact ih hk.2

theorem dictGet_insert_self (d : List (String × String)) (n v : String) :
    dictGet (dictInsert d n v) n = some v := by
  unfold dictGet dictInsert
  split_ifs with hk
  · rw [find?_upd_mem v hk]
    rfl
  · rw [find?_append_nomem v hk]
    rfl

/-- Claim C10: when two raw pairs carry the same cell identifier, the
snapshot keeps only the later content.  First conjunct: with a later
occurrence of identifier `n` present, the content of an earlier occurrence
has no effect at all on the constructed snapshot (hence on any derived
view).  Second conjunct: after the last raw pair binding `n`, the stored
content for `n` is exactly that pair's extracted filename. -/
theorem from_page_last_wins
    (pre mid post raw : List (Option String × Option String))
    (n : String) (c₁ c₂ c : Option String) (cc : String) (hn : n ≠ "") :
    BoardState.from_page (pre ++ (some n, c₁) :: (mid ++ (some n, c) :: post))
      = BoardState.from_page (pre ++ (some n, c₂) :: (mid ++ (some n, c) :: post)) ∧
    dictGet (BoardState.from_page (raw ++ [(some n, some cc)])).pieces n
      = some (filenameOf (some cc)) := by
  constructor
  · unfold BoardState.from_page
    congr 1
    rw [List.foldl_append, List.foldl_cons, List.foldl_append, List.foldl_cons,
      List.foldl_append, List.foldl_cons, List.foldl_append, List.foldl_cons]
    congr 1
    have h0 : MaskEq n
        (stepPair (List.foldl stepPair [] pre) (some n, c₁))
        (stepPair (List.foldl stepPair [] pre) (some n, c₂)) := by
      rw [stepPair_some, stepPair_some, if_neg hn, if_neg hn]
      exact maskEq_insert_two n _ _ _
    exact stepPair_same_key_eq (maskEq_foldl h0 mid) hn c
  · unfold BoardState.from_page
    rw [List.foldl_append, List.foldl_cons, List.foldl_nil, stepPair_some, if_neg hn]
    exact dictGet_insert_self _ n _

/-- Witness for C10: the earlier content stored under `space23` is
irrelevant once a later pair rebinds it, and the retained content is the
later filename. -/
theorem from_page_last_wins_witness :
    BoardState.from_page [(some "space23", some "you1.gif"),
        (some "space45", some "me1.gif"), (some "space23", some "gray.gif")]
      = BoardState.from_page [(some "space23", some "black.gif"),
        (some "space45", some "me1.gif"), (some "space23", some "gray.gif")] ∧
    dictGet (BoardState.from_page [(some "space23", some "you1.gif"),
        (some "space23", some "img/gray.gif")]).pieces "space23"
      = some (filenameOf (some "img/gray.gif")) :=
  from_page_last_wins [] [(some "space45", some "me1.gif")] []
    [(some "space23", some "you1.gif")] "space23"
    (some "you1.gif") (some "black.gif") (some "gray.gif") "img/gray.gif"
    (by decide)

end Checkers
